import Mathlib

/-!
Shallow embedding of the reconciliation core of
`src/collect_downloads.py` (asimov-platform/package-metrics), together
with theorems settling the specification claims about it.

The embedded pieces are:
* the record dictionaries produced by the fetchers (`PackageRecord`,
  with counter fields that may be a Python `None` or absent),
* `compute_deltas` (lines 240-252), modelled row by row; a Python
  exception raised inside the loop is modelled as `Option.none`,
* the record built per GitHub repository (`githubEntry`, lines 220-229),
* the final sort `all_data.sort(key=itemgetter("source", "owner", "name"))`
  (line 297), modelled as a stable insertion sort by the same key.
-/

namespace PackageMetrics

/-- A Python value held in a counter field of a record dictionary:
either `None` or an integer. -/
inductive PyVal where
  | null : PyVal
  | int : Int → PyVal
deriving DecidableEq, Repr

/-- One record dictionary as built by the fetchers and consumed by
`compute_deltas`. The identity fields `source`, `owner`, `name` are
always present strings; a counter field is `Option.none` when the
dictionary key is absent, and `some .null` when the key is present with
value `None`. -/
structure PackageRecord where
  source : String
  owner : String
  name : String
  downloads : Option PyVal
  daily_downloads : Option PyVal
deriving DecidableEq, Repr

/-- `key = (row["source"], row["owner"], row["name"])` (line 243). -/
def packageKey (r : PackageRecord) : String × String × String :=
  (r.source, r.owner, r.name)

/-- The previous-snapshot dictionary `prev_map`; `prev_map.get(key)` is
function application. -/
abbrev SnapshotMap := String × String × String → Option Int

/-- `current = int(row.get("downloads") or 0)` (line 244): a missing
key, a `None` value and a zero all collapse to `0`. -/
def currentOf (r : PackageRecord) : Int :=
  match r.downloads with
  | some (.int n) => n
  | _ => 0

/-- One iteration of the loop body of `compute_deltas` (lines 242-251)
on `row`. In the pypi branch with `prev` present,
`prev + row.get("daily_downloads", 0)` raises `TypeError` when the key
is present with value `None`; that raise is modelled as `Option.none`.
A missing `daily_downloads` key uses the default `0`. -/
def reconcileRow (prev_map : SnapshotMap) (r : PackageRecord) : Option PackageRecord :=
  if r.source = "pypi" then
    match prev_map (packageKey r) with
    | some p =>
      match r.daily_downloads with
      | Option.none => some { r with downloads := some (.int (p + 0)) }
      | some .null => Option.none
      | some (.int d) => some { r with downloads := some (.int (p + d)) }
    | Option.none => some r
  else
    match prev_map (packageKey r) with
    | some p => some { r with daily_downloads := some (.int (max (currentOf r - p) 0)) }
    | Option.none => some { r with daily_downloads := some (.int 0) }

/-- The `for row in data` loop of `compute_deltas` (lines 242-252):
rows are processed in order; the first row that raises aborts the call
(`Option.none`). -/
def reconcileRows (prev_map : SnapshotMap) : List PackageRecord → Option (List PackageRecord)
  | [] => some []
  | r :: rest =>
    match reconcileRow prev_map r, reconcileRows prev_map rest with
    | some r2, some rest2 => some (r2 :: rest2)
    | _, _ => Option.none

/-- `compute_deltas(data, prev_map)` (lines 240-252). -/
def compute_deltas (data : List PackageRecord) (prev_map : SnapshotMap) :
    Option (List PackageRecord) :=
  reconcileRows prev_map data

/-- The entry appended for one GitHub repository by
`fetch_github_release_downloads` (lines 220-229): `downloads` is the
sum of the release asset download counts, `daily_downloads` is `None`. -/
def githubEntry (org repoName : String) (assetCounts : List Nat) : PackageRecord :=
  { source := "github"
    owner := org
    name := repoName
    downloads := some (.int (assetCounts.sum : Int))
    daily_downloads := some .null }

/-- The sort key `itemgetter("source", "owner", "name")` of line 297 as
a lexicographically ordered triple; a Python string comparison is a
code-point-lexicographic comparison of the character lists. -/
def sortKey (r : PackageRecord) : List Char ×ₗ List Char ×ₗ List Char :=
  toLex (r.source.data, toLex (r.owner.data, r.name.data))

/-- Non-strict comparison of two records by their sort key. -/
def keyLE (a b : PackageRecord) : Prop :=
  sortKey a ≤ sortKey b

instance : DecidableRel keyLE :=
  fun a b => inferInstanceAs (Decidable (sortKey a ≤ sortKey b))

instance : IsTotal PackageRecord keyLE :=
  ⟨fun a b => le_total (sortKey a) (sortKey b)⟩

instance : IsTrans PackageRecord keyLE :=
  ⟨fun _ _ _ h h2 => le_trans h h2⟩

/-- `all_data.sort(key=itemgetter("source", "owner", "name"))`
(line 297). Python's `list.sort` is a stable sort by the key, and a
stable sort by a key is extensionally the insertion sort with the
non-strict key comparison. -/
def sortByKey (l : List PackageRecord) : List PackageRecord :=
  l.insertionSort keyLE

/-! Row-level equations of `reconcileRow`, one per branch of the loop body. -/

theorem reconcileRow_pypi_noPrev {m : SnapshotMap} {r : PackageRecord}
    (hs : r.source = "pypi") (hm : m (packageKey r) = Option.none) :
    reconcileRow m r = some r := by
  unfold reconcileRow
  rw [if_pos hs, hm]

theorem reconcileRow_pypi_missingDaily {m : SnapshotMap} {r : PackageRecord} {p : Int}
    (hs : r.source = "pypi") (hm : m (packageKey r) = some p)
    (hd : r.daily_downloads = Option.none) :
    reconcileRow m r = some { r with downloads := some (.int (p + 0)) } := by
  unfold reconcileRow
  rw [if_pos hs, hm, hd]

theorem reconcileRow_pypi_nullDaily {m : SnapshotMap} {r : PackageRecord} {p : Int}
    (hs : r.source = "pypi") (hm : m (packageKey r) = some p)
    (hd : r.daily_downloads = some PyVal.null) :
    reconcileRow m r = Option.none := by
  unfold reconcileRow
  rw [if_pos hs, hm, hd]

theorem reconcileRow_pypi_intDaily {m : SnapshotMap} {r : PackageRecord} {p d : Int}
    (hs : r.source = "pypi") (hm : m (packageKey r) = some p)
    (hd : r.daily_downloads = some (PyVal.int d)) :
    reconcileRow m r = some { r with downloads := some (.int (p + d)) } := by
  unfold reconcileRow
  rw [if_pos hs, hm, hd]

theorem reconcileRow_other_noPrev {m : SnapshotMap} {r : PackageRecord}
    (hs : ¬r.source = "pypi") (hm : m (packageKey r) = Option.none) :
    reconcileRow m r = some { r with daily_downloads := some (.int 0) } := by
  unfold reconcileRow
  rw [if_neg hs, hm]

theorem reconcileRow_other_prev {m : SnapshotMap} {r : PackageRecord} {p : Int}
    (hs : ¬r.source = "pypi") (hm : m (packageKey r) = some p) :
    reconcileRow m r = some { r with daily_downloads := some (.int (max (currentOf r - p) 0)) } := by
  unfold reconcileRow
  rw [if_neg hs, hm]

/-- Inversion on a successful `reconcileRow`: the identity fields are
never rewritten; the pypi branch never touches `daily_downloads`; the
non-pypi branch never touches `downloads` and always stores a
non-negative integer into `daily_downloads`. -/
theorem reconcileRow_inv {m : SnapshotMap} {r r2 : PackageRecord}
    (h : reconcileRow m r = some r2) :
    r2.source = r.source ∧ r2.owner = r.owner ∧ r2.name = r.name ∧
    (r.source = "pypi" → r2.daily_downloads = r.daily_downloads) ∧
    (¬r.source = "pypi" →
      r2.downloads = r.downloads ∧
      ∃ n : Int, 0 ≤ n ∧ r2.daily_downloads = some (.int n)) := by
  by_cases hs : r.source = "pypi"
  · cases hm : m (packageKey r) with
    | none =>
      rw [reconcileRow_pypi_noPrev hs hm] at h
      cases h
      exact ⟨rfl, rfl, rfl, fun _ => rfl, fun hns => absurd hs hns⟩
    | some p =>
      cases hd : r.daily_downloads with
      | none =>
        rw [reconcileRow_pypi_missingDaily hs hm hd] at h
        cases h
        exact ⟨rfl, rfl, rfl, fun _ => hd, fun hns => absurd hs hns⟩
      | some v =>
        cases v with
        | null =>
          rw [reconcileRow_pypi_nullDaily hs hm hd] at h
          cases h
        | int d =>
          rw [reconcileRow_pypi_intDaily hs hm hd] at h
          cases h
          exact ⟨rfl, rfl, rfl, fun _ => hd, fun hns => absurd hs hns⟩
  · cases hm : m (packageKey r) with
    | none =>
      rw [reconcileRow_other_noPrev hs hm] at h
      cases h
      exact ⟨rfl, rfl, rfl, fun hp => absurd hp hs,
        fun _ => ⟨rfl, 0, le_refl 0, rfl⟩⟩
    | some p =>
      rw [reconcileRow_other_prev hs hm] at h
      cases h
      exact ⟨rfl, rfl, rfl, fun hp => absurd hp hs,
        fun _ => ⟨rfl, max (currentOf r - p) 0, le_max_right _ 0, rfl⟩⟩

/-- A successfully reconciled row is a fixed point of `reconcileRow`. -/
theorem reconcileRow_idem {m : SnapshotMap} {r r2 : PackageRecord}
    (h : reconcileRow m r = some r2) : reconcileRow m r2 = some r2 := by
  by_cases hs : r.source = "pypi"
  · cases hm : m (packageKey r) with
    | none =>
      rw [reconcileRow_pypi_noPrev hs hm] at h
      cases h
      exact reconcileRow_pypi_noPrev hs hm
    | some p =>
      cases hd : r.daily_downloads with
      | none =>
        rw [reconcileRow_pypi_missingDaily hs hm hd] at h
        cases h
        exact reconcileRow_pypi_missingDaily hs hm hd
      | some v =>
        cases v with
        | null =>
          rw [reconcileRow_pypi_nullDaily hs hm hd] at h
          cases h
        | int d =>
          rw [reconcileRow_pypi_intDaily hs hm hd] at h
          cases h
          exact reconcileRow_pypi_intDaily hs hm hd
  · cases hm : m (packageKey r) with
    | none =>
      rw [reconcileRow_other_noPrev hs hm] at h
      cases h
      exact reconcileRow_other_noPrev hs hm
    | some p =>
      rw [reconcileRow_other_prev hs hm] at h
      cases h
      exact reconcileRow_other_prev hs hm

/-! List-level lemmas about the reconciliation loop. -/

/-- A successful `reconcileRows` relates input rows to output rows
pointwise by `reconcileRow`. -/
theorem reconcileRows_forall2 {m : SnapshotMap} :
    ∀ {l out : List PackageRecord}, reconcileRows m l = some out →
      List.Forall₂ (fun r r2 => reconcileRow m r = some r2) l out := by
  intro l
  induction l with
  | nil =>
    intro out h
    cases h
    exact List.Forall₂.nil
  | cons r rest ih =>
    intro out h
    unfold reconcileRows at h
    cases hr : reconcileRow m r with
    | none =>
      rw [hr] at h
      cases h
    | some r2 =>
      cases hrest : reconcileRows m rest with
      | none =>
        rw [hr, hrest] at h
        cases h
      | some rest2 =>
        rw [hr, hrest] at h
        cases h
        exact List.Forall₂.cons hr (ih hrest)

/-- Rebuild a successful `reconcileRows` run from pointwise successes
on the members of the list itself. -/
theorem reconcileRows_of_fixed {m : SnapshotMap} :
    ∀ {l : List PackageRecord}, (∀ r ∈ l, reconcileRow m r = some r) →
      reconcileRows m l = some l := by
  intro l
  induction l with
  | nil => intro _; rfl
  | cons r rest ih =>
    intro h
    unfold reconcileRows
    rw [h r (List.mem_cons_self r rest), ih (fun x hx => h x (List.mem_cons_of_mem r hx))]

/-- The output of a successful `reconcileRows` is a fixed point of
`reconcileRows`. -/
theorem reconcileRows_idem {m : SnapshotMap} :
    ∀ {l out : List PackageRecord}, reconcileRows m l = some out →
      reconcileRows m out = some out := by
  intro l
  induction l with
  | nil =>
    intro out h
    cases h
    rfl
  | cons r rest ih =>
    intro out h
    unfold reconcileRows at h
    cases hr : reconcileRow m r with
    | none =>
      rw [hr] at h
      cases h
    | some r2 =>
      cases hrest : reconcileRows m rest with
      | none =>
        rw [hr, hrest] at h
        cases h
      | some rest2 =>
        rw [hr, hrest] at h
        cases h
        unfold reconcileRows
        rw [reconcileRow_idem hr, ih hrest]

/-- Totality of one loop iteration away from the poison case: the only
raising branch is a pypi row whose `daily_downloads` key holds `None`
while a previous snapshot entry exists. -/
theorem reconcileRow_total {m : SnapshotMap} {r : PackageRecord}
    (h : r.source = "pypi" → r.daily_downloads = some PyVal.null →
      m (packageKey r) = Option.none) :
    ∃ r2, reconcileRow m r = some r2 := by
  by_cases hs : r.source = "pypi"
  · cases hm : m (packageKey r) with
    | none => exact ⟨r, reconcileRow_pypi_noPrev hs hm⟩
    | some p =>
      cases hd : r.daily_downloads with
      | none => exact ⟨_, reconcileRow_pypi_missingDaily hs hm hd⟩
      | some v =>
        cases v with
        | null =>
          rw [h hs hd] at hm
          cases hm
        | int d => exact ⟨_, reconcileRow_pypi_intDaily hs hm hd⟩
  · cases hm : m (packageKey r) with
    | none => exact ⟨_, reconcileRow_other_noPrev hs hm⟩
    | some p => exact ⟨_, reconcileRow_other_prev hs hm⟩

/-- Totality of the whole loop away from the poison case. -/
theorem reconcileRows_total {m : SnapshotMap} :
    ∀ {l : List PackageRecord},
      (∀ r ∈ l, r.source = "pypi" → r.daily_downloads = some PyVal.null →
        m (packageKey r) = Option.none) →
      ∃ out, reconcileRows m l = some out := by
  intro l
  induction l with
  | nil => intro _; exact ⟨[], rfl⟩
  | cons r rest ih =>
    intro h
    obtain ⟨r2, hr⟩ := reconcileRow_total (h r (List.mem_cons_self r rest))
    obtain ⟨rest2, hrest⟩ := ih (fun x hx => h x (List.mem_cons_of_mem r hx))
    exact ⟨r2 :: rest2, by unfold reconcileRows; rw [hr, hrest]⟩

/-! Concrete fixtures used by witnesses and counterexamples. -/

/-- An empty previous snapshot: no identity has a prior observation. -/
def emptySnap : SnapshotMap := fun _ => Option.none

/-- A crates row as fetched, with a cumulative count of 500. -/
def cratesRec : PackageRecord :=
  { source := "crates", owner := "x", name := "a",
    downloads := some (.int 500), daily_downloads := some .null }

/-- A previous snapshot holding 480 for the crates row. -/
def snapCrates : SnapshotMap :=
  fun k => if k = ("crates", "x", "a") then some 480 else Option.none

/-- A pypi row as fetched, with monthly 9999 and daily 10. -/
def pypiRec : PackageRecord :=
  { source := "pypi", owner := "x", name := "b",
    downloads := some (.int 9999), daily_downloads := some (.int 10) }

/-- A previous snapshot holding 9000 for the pypi row. -/
def snapPypi : SnapshotMap :=
  fun k => if k = ("pypi", "x", "b") then some 9000 else Option.none

/-- A pypi row carrying a negative raw `daily_downloads`. -/
def pypiNegRec : PackageRecord :=
  { source := "pypi", owner := "x", name := "b",
    downloads := some (.int 9999), daily_downloads := some (.int (-1)) }

/-- A pypi row with raw `daily_downloads = -5` and a prior entry of 100. -/
def pypiNeg5 : PackageRecord :=
  { source := "pypi", owner := "x", name := "b",
    downloads := some (.int 999), daily_downloads := some (.int (-5)) }

/-- A previous snapshot holding 100 for `pypiNeg5`. -/
def snapNeg5 : SnapshotMap :=
  fun k => if k = ("pypi", "x", "b") then some 100 else Option.none

/-- A pypi row whose `daily_downloads` key is present with value `None`. -/
def pypiNullRec : PackageRecord :=
  { source := "pypi", owner := "x", name := "c",
    downloads := some (.int 7), daily_downloads := some .null }

/-- A previous snapshot holding 50 for `pypiNullRec`. -/
def snapNull : SnapshotMap :=
  fun k => if k = ("pypi", "x", "c") then some 50 else Option.none

/-! Claim theorems. -/

/-- C1, counterexample: a pypi record with raw `daily_downloads = -1`
and no prior snapshot entry is returned by `compute_deltas` with its
`daily_downloads` field still `-1`, a negative number; the claim that
every output record has non-negative `daily_downloads` is false. -/
theorem C1_counterexample :
    compute_deltas [pypiNegRec] emptySnap = some [pypiNegRec] ∧
    pypiNegRec.daily_downloads = some (PyVal.int (-1)) ∧ (-1 : Int) < 0 := by
  refine ⟨by decide, rfl, by decide⟩

/-- C1, amended: in the output of `compute_deltas`, every non-pypi
record's `daily_downloads` is a non-negative integer, while a pypi
record's `daily_downloads` is passed through unchanged — so it is
non-negative exactly when the raw input value was. -/
theorem C1_amended_nonneg {data : List PackageRecord} {m : SnapshotMap}
    {out : List PackageRecord} (h : compute_deltas data m = some out) :
    List.Forall₂ (fun r r2 =>
      (¬r.source = "pypi" → ∃ n : Int, 0 ≤ n ∧ r2.daily_downloads = some (PyVal.int n)) ∧
      (r.source = "pypi" → r2.daily_downloads = r.daily_downloads)) data out := by
  refine (reconcileRows_forall2 h).imp (fun r r2 hr => ?_)
  exact ⟨fun hs => ((reconcileRow_inv hr).2.2.2.2 hs).2, (reconcileRow_inv hr).2.2.2.1⟩

/-- C1, witness: the amended theorem applied to the crates fixture. -/
theorem C1_witness :
    List.Forall₂ (fun r r2 =>
      (¬r.source = "pypi" → ∃ n : Int, 0 ≤ n ∧ r2.daily_downloads = some (PyVal.int n)) ∧
      (r.source = "pypi" → r2.daily_downloads = r.daily_downloads))
      [cratesRec] [{ cratesRec with daily_downloads := some (PyVal.int 20) }] :=
  @C1_amended_nonneg [cratesRec] snapCrates
    [{ cratesRec with daily_downloads := some (PyVal.int 20) }] (by decide)

/-- C2, counterexample: for a pypi record with raw `daily_downloads`
equal to `-5` and a prior entry `prev = 100`, `compute_deltas` stores
`downloads = 100 + (-5) = 95`: there is no clamp, the stored value is
not `prev + max(daily_downloads, 0) = 100`, and the reconciled
`downloads` went below `prev`. -/
theorem C2_counterexample :
    compute_deltas [pypiNeg5] snapNeg5 =
      some [{ pypiNeg5 with downloads := some (PyVal.int 95) }] ∧
    ¬ (95 : Int) = 100 + max (-5) 0 ∧ (95 : Int) < 100 := by
  refine ⟨by decide, by decide, by decide⟩

/-- C2, amended: for a pypi record with a prior entry `p` and raw
integer `daily_downloads = d`, `compute_deltas` sets
`downloads = p + d` with no clamping (a missing key defaults to `0`),
so the reconciled `downloads` is at least `p` exactly when `d ≥ 0`. -/
theorem C2_amended_accumulation {data : List PackageRecord} {m : SnapshotMap}
    {out : List PackageRecord} (h : compute_deltas data m = some out) :
    List.Forall₂ (fun r r2 => ∀ p d : Int, r.source = "pypi" →
      m (packageKey r) = some p → r.daily_downloads = some (PyVal.int d) →
      r2.downloads = some (PyVal.int (p + d)) ∧ (0 ≤ d → p ≤ p + d)) data out := by
  refine (reconcileRows_forall2 h).imp (fun r r2 hr => ?_)
  intro p d hs hm hd
  rw [reconcileRow_pypi_intDaily hs hm hd] at hr
  cases hr
  exact ⟨rfl, fun hd0 => le_add_of_nonneg_right hd0⟩

/-- C2, witness: the amended theorem applied to the pypi fixture with
`prev = 9000` and raw daily `10`, giving `downloads = 9010`. -/
theorem C2_witness :
    List.Forall₂ (fun r r2 => ∀ p d : Int, r.source = "pypi" →
      snapPypi (packageKey r) = some p → r.daily_downloads = some (PyVal.int d) →
      r2.downloads = some (PyVal.int (p + d)) ∧ (0 ≤ d → p ≤ p + d))
      [pypiRec] [{ pypiRec with downloads := some (PyVal.int 9010) }] :=
  @C2_amended_accumulation [pypiRec] snapPypi
    [{ pypiRec with downloads := some (PyVal.int 9010) }] (by decide)

/-- C3: for a non-pypi record with integer cumulative count `c` and
prior entry `p`, `compute_deltas` stores `daily_downloads = c - p`
when `c ≥ p`, and exactly `0` when `c < p`. -/
theorem C3_cumulative_delta {data : List PackageRecord} {m : SnapshotMap}
    {out : List PackageRecord} (h : compute_deltas data m = some out) :
    List.Forall₂ (fun r r2 => ∀ p c : Int, ¬r.source = "pypi" →
      m (packageKey r) = some p → r.downloads = some (PyVal.int c) →
      (p ≤ c → r2.daily_downloads = some (PyVal.int (c - p))) ∧
      (c < p → r2.daily_downloads = some (PyVal.int 0))) data out := by
  refine (reconcileRows_forall2 h).imp (fun r r2 hr => ?_)
  intro p c hs hm hc
  rw [reconcileRow_other_prev hs hm] at hr
  cases hr
  have hcur : currentOf r = c := by simp [currentOf, hc]
  rw [hcur]
  constructor
  · intro hpc
    rw [max_eq_left (sub_nonneg.mpr hpc)]
  · intro hcp
    rw [max_eq_right (sub_nonpos.mpr (le_of_lt hcp))]

/-- C3, witness: the theorem applied to the crates fixture with
`c = 500 ≥ p = 480`, giving `daily_downloads = 20`. -/
theorem C3_witness :
    List.Forall₂ (fun r r2 => ∀ p c : Int, ¬r.source = "pypi" →
      snapCrates (packageKey r) = some p → r.downloads = some (PyVal.int c) →
      (p ≤ c → r2.daily_downloads = some (PyVal.int (c - p))) ∧
      (c < p → r2.daily_downloads = some (PyVal.int 0)))
      [cratesRec] [{ cratesRec with daily_downloads := some (PyVal.int 20) }] :=
  @C3_cumulative_delta [cratesRec] snapCrates
    [{ cratesRec with daily_downloads := some (PyVal.int 20) }] (by decide)

/-- C4, counterexample: `compute_deltas` is not total — on a pypi
record whose `daily_downloads` key holds `None` while a prior snapshot
entry exists, the Python code evaluates `prev + None` and raises
`TypeError`, so no result is returned. -/
theorem C4_counterexample :
    compute_deltas [pypiNullRec] snapNull = Option.none := by
  decide

/-- C4, amended: `compute_deltas` is pure and returns a result for
every input in which no pypi record combines a `daily_downloads` key
holding `None` with a present prior snapshot entry; missing counter
keys never cause an error. -/
theorem C4_amended_total {data : List PackageRecord} {m : SnapshotMap}
    (h : ∀ r ∈ data, r.source = "pypi" → r.daily_downloads = some PyVal.null →
      m (packageKey r) = Option.none) :
    ∃ out, compute_deltas data m = some out :=
  reconcileRows_total h

/-- C4, witness: the amended theorem applied to a mixed two-row list. -/
theorem C4_witness :
    ∃ out, compute_deltas [cratesRec, pypiRec] snapCrates = some out :=
  C4_amended_total (by decide)

/-- C5: for a record whose identity is absent from the previous
snapshot, `compute_deltas` stores `daily_downloads = 0` when the record
is not a pypi record, and leaves both `downloads` and `daily_downloads`
untouched when it is a pypi record. -/
theorem C5_first_observation {data : List PackageRecord} {m : SnapshotMap}
    {out : List PackageRecord} (h : compute_deltas data m = some out) :
    List.Forall₂ (fun r r2 => m (packageKey r) = Option.none →
      (¬r.source = "pypi" → r2.daily_downloads = some (PyVal.int 0)) ∧
      (r.source = "pypi" → r2.downloads = r.downloads ∧
        r2.daily_downloads = r.daily_downloads)) data out := by
  refine (reconcileRows_forall2 h).imp (fun r r2 hr => ?_)
  intro hm
  by_cases hs : r.source = "pypi"
  · rw [reconcileRow_pypi_noPrev hs hm] at hr
    cases hr
    exact ⟨fun hns => absurd hs hns, fun _ => ⟨rfl, rfl⟩⟩
  · rw [reconcileRow_other_noPrev hs hm] at hr
    cases hr
    exact ⟨fun _ => rfl, fun hp => absurd hp hs⟩

/-- C5, witness: the theorem applied to a crates row and a pypi row
against the empty snapshot. -/
theorem C5_witness :
    List.Forall₂ (fun r r2 => emptySnap (packageKey r) = Option.none →
      (¬r.source = "pypi" → r2.daily_downloads = some (PyVal.int 0)) ∧
      (r.source = "pypi" → r2.downloads = r.downloads ∧
        r2.daily_downloads = r.daily_downloads))
      [cratesRec, pypiRec]
      [{ cratesRec with daily_downloads := some (PyVal.int 0) }, pypiRec] :=
  @C5_first_observation [cratesRec, pypiRec] emptySnap
    [{ cratesRec with daily_downloads := some (PyVal.int 0) }, pypiRec] (by decide)

/-- C6, counterexample: the collector attaches `daily_downloads = None`
to a GitHub record, but `compute_deltas` overwrites that field with the
integer `0` when the identity has no prior snapshot entry — so after
reconciliation the field is not null. -/
theorem C6_counterexample :
    (githubEntry "asimov-platform" "repo" [3, 4]).daily_downloads = some PyVal.null ∧
    compute_deltas [githubEntry "asimov-platform" "repo" [3, 4]] emptySnap =
      some [{ githubEntry "asimov-platform" "repo" [3, 4] with
              daily_downloads := some (PyVal.int 0) }] ∧
    ¬ some (PyVal.int 0) = some PyVal.null := by
  refine ⟨rfl, by decide, by decide⟩

/-- C6, amended: GitHub records leave the collector with
`daily_downloads = None`, but reconciliation treats github like every
other cumulative-only source and overwrites the field with a
non-negative integer (`max(current - prev, 0)`, or `0` with no prior
entry), so after `compute_deltas` it is never null. -/
theorem C6_amended_github {data : List PackageRecord} {m : SnapshotMap}
    {out : List PackageRecord} (h : compute_deltas data m = some out) :
    (∀ org repoName counts,
      (githubEntry org repoName counts).daily_downloads = some PyVal.null) ∧
    List.Forall₂ (fun r r2 => r.source = "github" →
      ∃ n : Int, 0 ≤ n ∧ r2.daily_downloads = some (PyVal.int n)) data out := by
  refine ⟨fun _ _ _ => rfl, (reconcileRows_forall2 h).imp (fun r r2 hr => ?_)⟩
  intro hg
  have hs : ¬r.source = "pypi" := by rw [hg]; decide
  exact ((reconcileRow_inv hr).2.2.2.2 hs).2

/-- C6, witness: the amended theorem applied to a GitHub entry with a
prior snapshot entry of 2, where the stored delta is `7 - 2 = 5`. -/
theorem C6_witness :
    (∀ org repoName counts,
      (githubEntry org repoName counts).daily_downloads = some PyVal.null) ∧
    List.Forall₂ (fun r r2 => r.source = "github" →
      ∃ n : Int, 0 ≤ n ∧ r2.daily_downloads = some (PyVal.int n))
      [githubEntry "asimov-platform" "repo" [3, 4]]
      [{ githubEntry "asimov-platform" "repo" [3, 4] with
         daily_downloads := some (PyVal.int 5) }] :=
  @C6_amended_github [githubEntry "asimov-platform" "repo" [3, 4]]
    (fun k => if k = ("github", "asimov-platform", "repo") then some 2 else Option.none)
    [{ githubEntry "asimov-platform" "repo" [3, 4] with
       daily_downloads := some (PyVal.int 5) }] (by decide)

/-- C7: reconciliation is deterministic (a pure function of its
arguments) and idempotent: whenever `compute_deltas` returns a result,
running it again on the same inputs gives the same answer, and running
it on its own output with the same snapshot map returns that output
unchanged — every record's fields, `downloads` and `daily_downloads`
included, stay as they are. -/
theorem C7_idempotent {data : List PackageRecord} {m : SnapshotMap}
    {out : List PackageRecord} (h : compute_deltas data m = some out) :
    compute_deltas data m = compute_deltas data m ∧
    compute_deltas out m = some out :=
  ⟨rfl, reconcileRows_idem h⟩

/-- C7, witness: the theorem applied to a mixed crates/pypi input. -/
theorem C7_witness :
    compute_deltas [cratesRec, pypiRec] snapCrates =
      compute_deltas [cratesRec, pypiRec] snapCrates ∧
    compute_deltas
      [{ cratesRec with daily_downloads := some (PyVal.int 20) }, pypiRec]
      snapCrates =
      some [{ cratesRec with daily_downloads := some (PyVal.int 20) }, pypiRec] :=
  @C7_idempotent [cratesRec, pypiRec] snapCrates
    [{ cratesRec with daily_downloads := some (PyVal.int 20) }, pypiRec] (by decide)

/-- C8: `compute_deltas` leaves the `downloads` field of every non-pypi
record exactly as it was in the input, with or without a prior snapshot
entry for its identity. -/
theorem C8_downloads_frame {data : List PackageRecord} {m : SnapshotMap}
    {out : List PackageRecord} (h : compute_deltas data m = some out) :
    List.Forall₂ (fun r r2 => ¬r.source = "pypi" →
      r2.downloads = r.downloads) data out := by
  refine (reconcileRows_forall2 h).imp (fun r r2 hr => ?_)
  exact fun hs => ((reconcileRow_inv hr).2.2.2.2 hs).1

/-- C8, witness: the theorem applied to the crates fixture, whose
`downloads` stays 500 while its delta is computed. -/
theorem C8_witness :
    List.Forall₂ (fun r r2 => ¬r.source = "pypi" →
      r2.downloads = r.downloads)
      [cratesRec] [{ cratesRec with daily_downloads := some (PyVal.int 20) }] :=
  @C8_downloads_frame [cratesRec] snapCrates
    [{ cratesRec with daily_downloads := some (PyVal.int 20) }] (by decide)

/-! Sort-order infrastructure for the output-ordering claim. -/

/-- Strings are equal when their character data lists are equal. -/
theorem string_data_inj {s t : String} (h : s.data = t.data) : s = t := by
  cases s
  cases t
  cases h
  rfl

/-- Records with equal sort keys have equal `(source, owner, name)`. -/
theorem sortKey_inj {a b : PackageRecord} (h : sortKey a = sortKey b) :
    packageKey a = packageKey b := by
  unfold sortKey at h
  rw [toLex_inj, Prod.ext_iff] at h
  obtain ⟨h1, h2⟩ := h
  rw [toLex_inj, Prod.ext_iff] at h2
  obtain ⟨h2, h3⟩ := h2
  unfold packageKey
  rw [Prod.ext_iff, Prod.ext_iff]
  exact ⟨string_data_inj h1, string_data_inj h2, string_data_inj h3⟩

/-- A `keyLE`-sorted list whose keys are pairwise distinct is pairwise
strictly increasing in the key order. -/
theorem sorted_strict {s : List PackageRecord}
    (hs : List.Sorted keyLE s) (hnd : (s.map packageKey).Nodup) :
    s.Pairwise (fun a b => sortKey a < sortKey b) := by
  have hne : s.Pairwise (fun a b => packageKey a ≠ packageKey b) :=
    (List.pairwise_map).mp hnd
  exact (List.Pairwise.and hs hne).imp
    (fun h => lt_of_le_of_ne h.1 (fun he => h.2 (sortKey_inj he)))

/-- Two distinct records sharing the identity `("crates", "x", "a")`. -/
def dupRecA : PackageRecord :=
  { source := "crates", owner := "x", name := "a",
    downloads := some (.int 1), daily_downloads := some .null }

/-- A second record with the same identity as `dupRecA` but a different
`downloads` value. -/
def dupRecB : PackageRecord :=
  { source := "crates", owner := "x", name := "a",
    downloads := some (.int 2), daily_downloads := some .null }

/-- C9, counterexample: the two lists `[dupRecA, dupRecB]` and
`[dupRecB, dupRecA]` are permutations of each other, yet the stable
sort by `(source, owner, name)` returns them in their respective input
orders — the records share one key, so the sorted outputs differ. -/
theorem C9_counterexample :
    ([dupRecA, dupRecB] : List PackageRecord).Perm [dupRecB, dupRecA] ∧
    ¬ sortByKey [dupRecA, dupRecB] = sortByKey [dupRecB, dupRecA] :=
  ⟨List.Perm.swap dupRecB dupRecA [], by decide⟩

/-- C9, amended: for any two record lists that are permutations of each
other, if no two records share the key `(source, owner, name)`, the
stable sort by that key produces the identical sequence. -/
theorem C9_amended_sort_determinism {l1 l2 : List PackageRecord}
    (hperm : l1.Perm l2) (hnd : (l1.map packageKey).Nodup) :
    sortByKey l1 = sortByKey l2 := by
  have hp1 : (sortByKey l1).Perm l1 := List.perm_insertionSort keyLE l1
  have hp2 : (sortByKey l2).Perm l2 := List.perm_insertionSort keyLE l2
  have hp : (sortByKey l1).Perm (sortByKey l2) := (hp1.trans hperm).trans hp2.symm
  have hnd1 : ((sortByKey l1).map packageKey).Nodup :=
    ((hp1.map packageKey).symm).nodup hnd
  have hnd2 : ((sortByKey l2).map packageKey).Nodup :=
    (hp.map packageKey).nodup hnd1
  have hs1 := sorted_strict (List.sorted_insertionSort keyLE l1) hnd1
  have hs2 := sorted_strict (List.sorted_insertionSort keyLE l2) hnd2
  haveI : IsAntisymm PackageRecord (fun a b => sortKey a < sortKey b) :=
    ⟨fun _ _ h1 h2 => (lt_asymm h1 h2).elim⟩
  exact List.eq_of_perm_of_sorted hp hs1 hs2

/-- C9, witness: the amended theorem applied to a two-record list with
distinct keys and its transposition. -/
theorem C9_witness :
    sortByKey [pypiRec, cratesRec] = sortByKey [cratesRec, pypiRec] :=
  C9_amended_sort_determinism (List.Perm.swap cratesRec pypiRec []) (by decide)

/-- A pypi row with an absent `downloads` key, a `daily_downloads` key
holding `None`, and a prior snapshot entry. -/
def pypiNullRec2 : PackageRecord :=
  { source := "pypi", owner := "y", name := "d",
    downloads := Option.none, daily_downloads := some .null }

/-- A previous snapshot holding 3 for `pypiNullRec2`. -/
def snapNull2 : SnapshotMap :=
  fun k => if k = ("pypi", "y", "d") then some 3 else Option.none

/-- C10, counterexample: `compute_deltas` does not return a list for
every input — on `pypiNullRec2` with its prior entry present the
Python loop raises `TypeError` (`prev + None`), so no output list
exists for this input. -/
theorem C10_counterexample :
    compute_deltas [pypiNullRec2] snapNull2 = Option.none := by
  decide

/-- C10, amended: whenever `compute_deltas` returns, the output list
has the same length as the input, the record at each position
corresponds to the input record at that position, and its `source`,
`owner` and `name` fields are unchanged — reconciliation never adds,
drops, reorders or re-identifies a record. -/
theorem C10_amended_frame {data : List PackageRecord} {m : SnapshotMap}
    {out : List PackageRecord} (h : compute_deltas data m = some out) :
    out.length = data.length ∧
    List.Forall₂ (fun r r2 => r2.source = r.source ∧ r2.owner = r.owner ∧
      r2.name = r.name) data out := by
  have h2 := reconcileRows_forall2 h
  refine ⟨h2.length_eq.symm, h2.imp (fun r r2 hr => ?_)⟩
  obtain ⟨a, b, c, -⟩ := reconcileRow_inv hr
  exact ⟨a, b, c⟩

/-- C10, witness: the amended theorem applied to a crates/pypi pair. -/
theorem C10_witness :
    ([{ cratesRec with daily_downloads := some (PyVal.int 0) },
      { pypiRec with downloads := some (PyVal.int 9010) }] : List PackageRecord).length =
      ([cratesRec, pypiRec] : List PackageRecord).length ∧
    List.Forall₂ (fun r r2 => r2.source = r.source ∧ r2.owner = r.owner ∧
      r2.name = r.name) [cratesRec, pypiRec]
      [{ cratesRec with daily_downloads := some (PyVal.int 0) },
       { pypiRec with downloads := some (PyVal.int 9010) }] :=
  @C10_amended_frame [cratesRec, pypiRec] snapPypi
    [{ cratesRec with daily_downloads := some (PyVal.int 0) },
     { pypiRec with downloads := some (PyVal.int 9010) }] (by decide)

end PackageMetrics
